import Mathlib

/-!
Verification of the researcher discovery and reconciliation pipeline
(`src/researcher_finder.py`) against its natural-language specification.

The Python code is shallowly embedded: strings are `List Char` (so that the
character-level operations of the source — `strip`, `lstrip`, `lower`,
`split`, substring tests — are executable and provable), remote HTTP calls
are modelled by a `Registry` of response functions fixed per run, and
Python's `try/except` blocks become total functions over an `ApiResult`
sum that has an explicit exception constructor.  Python `.lower()` is
modelled by ASCII lowering (`Char.toLower`), which agrees with CPython on
all ASCII input; every string constant the code compares against is ASCII.
-/

/-- Strings of the embedded program: Python `str` as a list of characters. -/
abbrev Str := List Char

/-- Character list of a Lean string literal. -/
def str (s : String) : Str := s.data

/-- Python `str.isspace` on a single character (the whitespace set used by
`str.strip` / `str.split` with no arguments). -/
def pyIsSpace (c : Char) : Bool :=
  c = ' ' || c = '\t' || c = '\n' || c = '\r' || c = '\x0b' || c = '\x0c'

/-- Python `s.strip()` with no argument: remove leading and trailing
whitespace. -/
def pyStrip (s : Str) : Str :=
  ((s.dropWhile pyIsSpace).reverse.dropWhile pyIsSpace).reverse

/-- The character set of `line.lstrip('-•*0123456789. ')` in
`search_institution_faculty` (source line 63). -/
def bulletChars : Str := str "-•*0123456789. "

/-- Python `line.lstrip('-•*0123456789. ')`: drop leading characters that
belong to the bullet/numbering set. -/
def lstripBullets (s : Str) : Str :=
  s.dropWhile (fun c => bulletChars.contains c)

/-- Python `s.lower()`, restricted to ASCII case mapping. -/
def pyLower (s : Str) : Str := s.map Char.toLower

/-- Accumulator worker for `splitWs`: `acc` is the reversed current token. -/
def splitWsAux : Str → Str → List Str
  | [], acc => if acc.isEmpty then [] else [acc.reverse]
  | c :: cs, acc =>
    if pyIsSpace c then
      if acc.isEmpty then splitWsAux cs [] else acc.reverse :: splitWsAux cs []
    else splitWsAux cs (c :: acc)

/-- Python `s.split()` with no argument: split on runs of whitespace,
discarding empty pieces. -/
def splitWs (s : Str) : List Str := splitWsAux s []

/-- Python `s.split('\n')`: split at each newline, keeping empty pieces. -/
def splitNl : Str → List Str
  | [] => [[]]
  | c :: cs =>
    if c = '\n' then [] :: splitNl cs
    else
      match splitNl cs with
      | [] => [[c]]
      | t :: ts => (c :: t) :: ts

/-- Python substring test `pat in s`. -/
def isInfixB (pat : Str) : Str → Bool
  | [] => pat.isEmpty
  | c :: cs => pat.isPrefixOf (c :: cs) || isInfixB pat cs

/-- Python string comparison `a <= b`: lexicographic on code points.  Used
to model `sorted` on strings. -/
def lexLe : Str → Str → Bool
  | [], _ => true
  | _ :: _, [] => false
  | a :: as, b :: bs => if a = b then lexLe as bs else decide (a.toNat < b.toNat)

/-- The narrative lead-ins rejected by the name filter
(source line 68). -/
def leadIns : List Str :=
  [str "based on", str "please note", str "here is", str "the following"]

/-- One iteration of the line-filtering loop of `search_institution_faculty`
(source lines 60–75): `some name` when the line is accepted as a candidate
name, `none` when it is skipped. -/
def processLine (raw : Str) : Option Str :=
  let line0 := pyStrip raw
  if line0 = [] then none
  else
    let line := lstripBullets line0
    if line = [] then none
    else if isInfixB (str "**") line then none
    else if (str ":").isSuffixOf line then none
    else if leadIns.any (fun p => p.isPrefixOf (pyLower line)) then none
    else if 60 < line.length then none
    else if line.contains ',' && decide (1 < line.count ',') then none
    else if 2 ≤ (splitWs line).length then some line
    else none

/-- The whole parsing loop of `search_institution_faculty` applied to the
model output text (source lines 59–76): `output_text.strip().split('\n')`
processed line by line. -/
def parseNames (text : Str) : List Str :=
  (splitNl (pyStrip text)).filterMap processLine

/-- Modelled from the spec: the rejection condition of the Name
Parser/Filter exactly as the claim words it — empty after stripping,
emphasis markup, trailing colon, narrative lead-in (case-insensitive),
longer than 60 characters, or more than one comma.  Compared against
`processLine`, which is translated from the source. -/
def specRejects (line : Str) : Bool :=
  line.isEmpty || isInfixB (str "**") line || (str ":").isSuffixOf line ||
    leadIns.any (fun p => p.isPrefixOf (pyLower line)) ||
    decide (60 < line.length) || decide (1 < line.count ',')

/-- One entry of `metadata['ids']`: a JSON object with optional `schema`
and `value` fields. -/
structure IdEntry where
  schema : Option Str
  value : Option Str
deriving DecidableEq

/-- The `metadata['name']` object with optional `preferred_name` and
`value`. -/
structure NameField where
  preferred_name : Option Str
  value : Option Str
deriving DecidableEq

/-- The `position['record']` object; `ref` models the `'$ref'` field. -/
structure PositionRecord where
  ref : Option Str
deriving DecidableEq

/-- One entry of `metadata['positions']`. -/
structure Position where
  current : Option Bool
  record : Option PositionRecord
deriving DecidableEq

/-- An author `metadata` object; every field access in the source is a
`dict.get`, so every field here is optional. -/
structure AuthorMetadata where
  name : Option NameField
  ids : Option (List IdEntry)
  positions : Option (List Position)
  number_of_papers : Option Nat
deriving DecidableEq

/-- The default `{}` used by `hits[0].get('metadata', {})`. -/
def emptyMetadata : AuthorMetadata :=
  { name := none, ids := none, positions := none, number_of_papers := none }

/-- One element of `data['hits']['hits']`. -/
structure Hit where
  id : Option Str
  metadata : Option AuthorMetadata
deriving DecidableEq

/-- The `data['hits']` object. -/
structure HitsObj where
  hits : Option (List Hit)
deriving DecidableEq

/-- The top-level body of an author search response. -/
structure SearchData where
  hits : Option HitsObj
deriving DecidableEq

/-- Body of a single-author profile response (`/authors/{id}`). -/
structure ProfileData where
  metadata : Option AuthorMetadata
deriving DecidableEq

/-- The `metadata` object of an institution record. -/
structure InstMetadata where
  legacy_ICN : Option Str
deriving DecidableEq

/-- Body of an institution response (`/institutions/{id}`). -/
structure InstData where
  metadata : Option InstMetadata
deriving DecidableEq

/-- Outcome of one HTTP call: `exc` models any exception raised inside the
`try` block (network error, timeout, JSON parsing failure), `ok status
body` a response that parsed. -/
inductive ApiResult (α : Type) where
  | exc : ApiResult α
  | ok : Nat → α → ApiResult α
deriving DecidableEq

/-- The fixed remote responses of one pipeline run: one response function
per endpoint the source calls.  `discovery` yields the chat-completion
content text (its `exc` also covers a failure to index into the response
JSON). -/
structure Registry where
  discovery : Str → ApiResult Str
  authorSearch : Str → ApiResult SearchData
  authorProfile : Str → ApiResult ProfileData
  institution : Str → ApiResult InstData
  authorsAt : Str → ApiResult SearchData

/-- A researcher dict as built by the source.  `publication_count` is
optional because the unmatched-record literal at source line 346 omits the
key entirely. -/
structure ResearcherRec where
  name : Str
  inspire_bai : Option Str
  inspire_id : Option Str
  url : Option Str
  publication_count : Option Nat
deriving DecidableEq

/-- Python truthiness of an optional string field (`None` and `''` are
falsy). -/
def optTruthy : Option Str → Bool
  | some s => !s.isEmpty
  | none => false

/-- The fixed schema label accepted as the stable key (source line 115). -/
def baiSchema : Str := str "INSPIRE BAI"

/-- The BAI extraction loop (source lines 113–117 and 204–208): first id
entry whose `schema` equals `'INSPIRE BAI'`; its (optional) `value`, else
`None`. -/
def findBai : List IdEntry → Option Str
  | [] => none
  | e :: rest => if e.schema = some baiSchema then e.value else findBai rest

/-- Embeds `data.get('hits', {}).get('hits', [])` (source line 107). -/
def hitsOf (d : SearchData) : List Hit :=
  ((d.hits.getD { hits := none }).hits.getD [])

/-- URL prefix of an author profile page. -/
def inspireAuthorsUrl : Str := str "https://inspirehep.net/authors/"

/-- Embeds `search_inspire_profile` (source lines 88–135): query the registry for
the single best hit for a name; `none` on exception, non-200 status or no
hit. -/
def search_inspire_profile (reg : Registry) (name : Str) : Option ResearcherRec :=
  match reg.authorSearch name with
  | .exc => none
  | .ok status data =>
    if status = 200 then
      match hitsOf data with
      | [] => none
      | hit :: _ =>
        let md := hit.metadata.getD emptyMetadata
        let controlNumber := hit.id.getD []
        some { name := name
               inspire_bai := findBai (md.ids.getD [])
               inspire_id := some controlNumber
               url := if controlNumber.isEmpty then none
                      else some (inspireAuthorsUrl ++ controlNumber)
               publication_count := some (md.number_of_papers.getD 0) }
    else none

/-- The `'/institutions/'` marker used in `$ref` matching. -/
def institutionsMarker : Str := str "/institutions/"

/-- Fuelled worker for `afterLast`. -/
def afterLastAux (sep : Str) : Nat → Str → Str
  | 0, s => s
  | _ + 1, [] => []
  | n + 1, c :: cs =>
    if sep.isPrefixOf (c :: cs) && !sep.isEmpty then
      afterLastAux sep n ((c :: cs).drop sep.length)
    else if isInfixB sep cs then afterLastAux sep n cs
    else c :: cs

/-- Python `s.split(sep)[-1]`: the segment after the last (left-to-right,
non-overlapping) occurrence of `sep`, or `s` itself when `sep` does not
occur. -/
def afterLast (sep s : Str) : Str := afterLastAux sep s.length s

/-- Set insertion modelling `set.add`: membership-based, keeping insertion
order (a chosen enumeration order; order independence is proved
separately). -/
def setAdd (l : List Str) (x : Str) : List Str :=
  if x ∈ l then l else l ++ [x]

/-- Python `set.update` over a list of new elements. -/
def setUnion (a b : List Str) : List Str := b.foldl setAdd a

/-- Embeds `get_author_affiliations` (source lines 138–163): the institution ids
referenced by the current positions of one author profile; empty on any
failure (`raise_for_status` raises on a 4xx/5xx status). -/
def get_author_affiliations (reg : Registry) (inspireId : Str) : List Str :=
  match reg.authorProfile inspireId with
  | .exc => []
  | .ok status data =>
    if 400 ≤ status then []
    else
      match data.metadata with
      | none => []
      | some md =>
        match md.positions with
        | none => []
        | some positions =>
          positions.foldl (fun acc pos =>
            if pos.current.getD false then
              match pos.record with
              | some rcd =>
                if isInfixB institutionsMarker (rcd.ref.getD []) then
                  setAdd acc (afterLast institutionsMarker (rcd.ref.getD []))
                else acc
              | none => acc
            else acc) []

/-- Embeds `get_institution_name` (source lines 166–175): the `legacy_ICN` display
name, `'Unknown'` on any failure or missing field. -/
def get_institution_name (reg : Registry) (instId : Str) : Str :=
  match reg.institution instId with
  | .exc => str "Unknown"
  | .ok status data =>
    if 400 ≤ status then str "Unknown"
    else (data.metadata.getD { legacy_ICN := none }).legacy_ICN.getD (str "Unknown")

/-- Name extraction of `get_authors_at_institution` (source lines 198–201). -/
def getDisplayName (md : AuthorMetadata) : Str :=
  match md.name with
  | none => str "Unknown"
  | some nf => nf.preferred_name.getD (nf.value.getD (str "Unknown"))

/-- The `current_here` loop of `get_authors_at_institution` (source lines
214–222): some position is current and its `$ref` contains
`/institutions/{inst_id}`. -/
def currentHere (instId : Str) (md : AuthorMetadata) : Bool :=
  (md.positions.getD []).any (fun pos =>
    pos.current.getD false &&
    (match pos.record with
     | some rcd => isInfixB (institutionsMarker ++ instId) (rcd.ref.getD [])
     | none => false))

/-- The author dict built at source lines 226–232. -/
def authorRecOfHit (hit : Hit) : ResearcherRec :=
  let md := hit.metadata.getD emptyMetadata
  let controlNumber := hit.id.getD []
  { name := getDisplayName md
    inspire_bai := findBai (md.ids.getD [])
    inspire_id := some controlNumber
    url := some (inspireAuthorsUrl ++ controlNumber)
    publication_count := some (md.number_of_papers.getD 0) }

/-- The hit list the loop of `get_authors_at_institution` runs over: empty
on exception or 4xx/5xx status, and guarded by the
`'hits' in data and 'hits' in data['hits']` presence checks
(source line 193). -/
def authorsAtHits (reg : Registry) (instId : Str) : List Hit :=
  match reg.authorsAt instId with
  | .exc => []
  | .ok status data =>
    if 400 ≤ status then []
    else
      match data.hits with
      | none => []
      | some hobj =>
        match hobj.hits with
        | none => []
        | some hits => hits

/-- Embeds `get_authors_at_institution` (source lines 178–238): all hits of the
institution query that are currently at that institution and carry a
truthy BAI. -/
def get_authors_at_institution (reg : Registry) (instId : Str) : List ResearcherRec :=
  (authorsAtHits reg instId).filterMap (fun hit =>
    let md := hit.metadata.getD emptyMetadata
    if currentHere instId md && optTruthy (findBai (md.ids.getD [])) then
      some (authorRecOfHit hit)
    else none)

/-- Phase A of `expand_via_inspire` (source lines 255–261): union of the
current-affiliation institution ids of every initial match that has a
truthy `inspire_id`. -/
def phaseA (reg : Registry) (initialMatches : List ResearcherRec) : List Str :=
  initialMatches.foldl (fun acc r =>
    if optTruthy r.inspire_id then
      setUnion acc (get_author_affiliations reg (r.inspire_id.getD []))
    else acc) []

/-- The keyword set of the target institution (source line 268): lowered
words longer than 3 characters. -/
def targetKeywords (institutionName : Str) : List Str :=
  ((splitWs institutionName).filter (fun w => 3 < w.length)).map pyLower

/-- Whether one institution id survives keyword filtering (source line
275): some keyword is a substring of the lowered resolved display name. -/
def keywordHit (reg : Registry) (kws : List Str) (instId : Str) : Bool :=
  kws.any (fun kw => isInfixB kw (pyLower (get_institution_name reg instId)))

/-- The `filtered_ids` set built at source lines 270–278. -/
def filteredIdsOf (reg : Registry) (institutionName : Str) (ids : List Str) : List Str :=
  ids.filter (keywordHit reg (targetKeywords institutionName))

/-- The surviving institution ids after the empty-filter fallback at source
lines 280–284. -/
def survivingIds (reg : Registry) (institutionName : Str) (ids : List Str) : List Str :=
  let f := filteredIdsOf reg institutionName ids
  if f.isEmpty then ids else f

/-- True iff the warning print at source line 281 ("No institutions
matched ..., using all ids") executes during `expand_via_inspire`: phase B
was reached with a non-empty candidate set and keyword filtering
eliminated every candidate. -/
def expandWarned (reg : Registry) (initialMatches : List ResearcherRec)
    (institutionName : Str) : Bool :=
  let ids := phaseA reg initialMatches
  !ids.isEmpty && (filteredIdsOf reg institutionName ids).isEmpty

/-- Python dict insertion `d[k] = v`: update in place when the key exists
(keys keep their first-insertion position), append otherwise. -/
def dictInsert : List (Str × ResearcherRec) → Str → ResearcherRec →
    List (Str × ResearcherRec)
  | [], k, v => [(k, v)]
  | p :: rest, k, v =>
    if p.1 = k then (k, v) :: rest else p :: dictInsert rest k v

/-- Python `d.get(k)` on the modelled dict. -/
def dictLookup (k : Str) (d : List (Str × ResearcherRec)) : Option ResearcherRec :=
  (d.find? (fun p => p.1 = k)).map (fun p => p.2)

/-- Python `list(d.values())` on the modelled dict. -/
def dictValues (d : List (Str × ResearcherRec)) : List ResearcherRec :=
  d.map (fun p => p.2)

/-- Body of the accumulation loop at source lines 294–297: store the
author under its BAI when the BAI is truthy. -/
def expandStep (d : List (Str × ResearcherRec)) (a : ResearcherRec) :
    List (Str × ResearcherRec) :=
  if optTruthy a.inspire_bai then dictInsert d (a.inspire_bai.getD []) a else d

/-- The relation form of `lexLe`, for the sorting lemmas. -/
def lexLeP (a b : Str) : Prop := lexLe a b = true

/-- Decidability of `lexLeP`, spelled so that it reduces in the kernel. -/
instance : DecidableRel lexLeP := fun a b => instDecidableEqBool (lexLe a b) true

/-- The name-ordering on researcher records used by `sorted(...,
key=lambda x: x['name'])`. -/
def recNameLe (a b : ResearcherRec) : Prop := lexLe a.name b.name = true

/-- Decidability of `recNameLe`, spelled so that it reduces in the
kernel. -/
instance : DecidableRel recNameLe := fun a b => instDecidableEqBool (lexLe a.name b.name) true

/-- The institution ids in the order the loop at source line 289 visits
them: `sorted(filtered_ids)`, ascending string order.  Python's `sorted`
is a stable sort, so any stable sorting algorithm models it; insertion
sort is used because it evaluates by kernel reduction. -/
def sortedIds (ids : List Str) : List Str := List.insertionSort lexLeP ids

/-- The author sequence the loops at source lines 289–299 feed into the
`all_authors` dict, in visit order. -/
def allAuthorsSeq (reg : Registry) (ids : List Str) : List ResearcherRec :=
  (sortedIds ids).flatMap (get_authors_at_institution reg)

/-- The `all_authors` dict after the loops at source lines 287–299. -/
def expandFold (reg : Registry) (ids : List Str) : List (Str × ResearcherRec) :=
  (allAuthorsSeq reg ids).foldl expandStep []

/-- Phase C of `expand_via_inspire` (source lines 287–301):
`list(all_authors.values())`. -/
def phaseC (reg : Registry) (ids : List Str) : List ResearcherRec :=
  dictValues (expandFold reg ids)

/-- Embeds `expand_via_inspire` (source lines 241–310): the no-institution-ids
fallback returns the initial matches unchanged (line 265); otherwise the
deduplicated membership of the surviving institutions. -/
def expand_via_inspire (reg : Registry) (initialMatches : List ResearcherRec)
    (institutionName : Str) : List ResearcherRec :=
  let ids := phaseA reg initialMatches
  if ids.isEmpty then initialMatches
  else phaseC reg (survivingIds reg institutionName ids)

/-- Embeds `search_institution_faculty` (source lines 16–85): discovery text
parsed into candidate names; empty on API error or exception. -/
def search_institution_faculty (reg : Registry) (institution : Str) : List Str :=
  match reg.discovery institution with
  | .exc => []
  | .ok status text => if status = 200 then parseNames text else []

/-- The identity-less record literal at source line 346 (note: no
`publication_count` key). -/
def unmatchedRec (name : Str) : ResearcherRec :=
  { name := name, inspire_bai := none, inspire_id := none, url := none,
    publication_count := none }

/-- The `results` list after the matching loop at source lines 334–347. -/
def initialResults (reg : Registry) (institution : Str) : List ResearcherRec :=
  (search_institution_faculty reg institution).map (fun n =>
    match search_inspire_profile reg n with
    | some p => p
    | none => unmatchedRec n)

/-- Embeds `matched_only` at source line 352: results with a truthy
`inspire_id`. -/
def matchedOnly (reg : Registry) (institution : Str) : List ResearcherRec :=
  (initialResults reg institution).filter (fun r => optTruthy r.inspire_id)

/-- Embeds `find_researchers` (source lines 313–384): the list returned to the
caller. -/
def find_researchers (reg : Registry) (institution : Str) : List ResearcherRec :=
  let names := search_institution_faculty reg institution
  if names.isEmpty then []
  else if !(matchedOnly reg institution).isEmpty then
    expand_via_inspire reg (matchedOnly reg institution) institution
  else initialResults reg institution

/-- The row order of the written report (source line 372):
`sorted(expanded_results, key=lambda x: x['name'])`, a stable sort on the
display name. -/
def reportRows (l : List ResearcherRec) : List ResearcherRec :=
  List.insertionSort recNameLe l

/-- Modelled from the spec: "ordered by display name, ascending,
case-sensitively" as a predicate on a record list, used to state the
ordering claim about the returned list. -/
def sortedByName (l : List ResearcherRec) : Prop :=
  l.Pairwise (fun a b => lexLe a.name b.name = true)

/-- The id entries attached to the top hit of an author search: the list
the BAI loop of `search_inspire_profile` ranges over (empty when there is
no hit). -/
def idsOfSearch (reg : Registry) (name : Str) : List IdEntry :=
  match reg.authorSearch name with
  | .exc => []
  | .ok _ data =>
    match hitsOf data with
    | [] => []
    | hit :: _ => (hit.metadata.getD emptyMetadata).ids.getD []

/-- A search response body holding the given hits. -/
def mkSearch (hits : List Hit) : SearchData :=
  { hits := some { hits := some hits } }

/-- An id-entry list holding one INSPIRE BAI. -/
def mkIds (b : String) : List IdEntry :=
  [{ schema := some baiSchema, value := some (str b) }]

/-- A current position at the institution referenced by `ref`. -/
def mkCurPos (ref : String) : Position :=
  { current := some true, record := some { ref := some (str ref) } }

/-- Registry fixture: a search hit with no position data. -/
def mkSearchHit (cn b : String) (pubs : Nat) : Hit :=
  { id := some (str cn)
    metadata := some { name := none, ids := some (mkIds b), positions := none,
                       number_of_papers := some pubs } }

/-- Registry fixture: a membership hit with a display name and a current
position at the institution referenced by `ref`. -/
def mkMemberHit (cn nm b ref : String) (pubs : Nat) : Hit :=
  { id := some (str cn)
    metadata := some { name := some { preferred_name := some (str nm), value := none }
                       ids := some (mkIds b)
                       positions := some [mkCurPos ref]
                       number_of_papers := some pubs } }

/-- The target institution of the concrete runs. -/
def instCam : Str := str "Cambridge University"

/-- The `$ref` of institution 903 in the fixtures. -/
def ref903 : String := "https://inspirehep.net/api/institutions/903"

/-- The record `search_inspire_profile` produces for Alice in the
fixtures. -/
def aliceRec : ResearcherRec :=
  { name := str "Alice Newton", inspire_bai := some (str "A.Newton.1")
    inspire_id := some (str "101"), url := some (inspireAuthorsUrl ++ str "101")
    publication_count := some 42 }

/-- Run fixture for the main expansion path: Alice matches and is expanded
through institution 903 into Alice (with fresher fields) and Carol; Bob
has no registry hit. -/
def regMain : Registry :=
  { discovery := fun q =>
      if q = instCam then .ok 200 (str "Alice Newton\nBob Carter") else .exc
    authorSearch := fun n =>
      if n = str "Alice Newton" then .ok 200 (mkSearch [mkSearchHit "101" "A.Newton.1" 42])
      else if n = str "Bob Carter" then .ok 200 (mkSearch [])
      else .exc
    authorProfile := fun i =>
      if i = str "101" then
        .ok 200 { metadata := some { name := none, ids := none,
                                     positions := some [mkCurPos ref903],
                                     number_of_papers := none } }
      else .exc
    institution := fun i =>
      if i = str "903" then
        .ok 200 { metadata := some { legacy_ICN := some (str "Cambridge U.") } }
      else .exc
    authorsAt := fun i =>
      if i = str "903" then
        .ok 200 (mkSearch [mkMemberHit "101" "Alice Newton" "A.Newton.1" ref903 45,
                           mkMemberHit "102" "Carol Lee" "C.Lee.1" ref903 7])
      else .exc }

/-- Run fixture where Alice matches but her profile fetch fails, so the
expander finds no institution ids and falls back to the matched set; Bob
has no registry hit. -/
def regNoIds : Registry :=
  { discovery := fun q =>
      if q = instCam then .ok 200 (str "Alice Newton\nBob Carter") else .exc
    authorSearch := fun n =>
      if n = str "Alice Newton" then .ok 200 (mkSearch [mkSearchHit "101" "A.Newton.1" 42])
      else if n = str "Bob Carter" then .ok 200 (mkSearch [])
      else .exc
    authorProfile := fun _ => .exc
    institution := fun _ => .exc
    authorsAt := fun _ => .exc }

/-- Run fixture where two distinct candidate names resolve to the same
stable key and every profile fetch fails. -/
def regDupBai : Registry :=
  { discovery := fun q =>
      if q = instCam then .ok 200 (str "Jane Smith\nJ. Smith") else .exc
    authorSearch := fun n =>
      if n = str "Jane Smith" then .ok 200 (mkSearch [mkSearchHit "301" "J.Smith.1" 10])
      else if n = str "J. Smith" then .ok 200 (mkSearch [mkSearchHit "302" "J.Smith.1" 3])
      else .exc
    authorProfile := fun _ => .exc
    institution := fun _ => .exc
    authorsAt := fun _ => .exc }

/-- Run fixture whose expansion enumerates members in non-alphabetical
order (the registry sorts by recency, not by name). -/
def regUnsorted : Registry :=
  { discovery := fun q =>
      if q = instCam then .ok 200 (str "Zed Quark") else .exc
    authorSearch := fun n =>
      if n = str "Zed Quark" then .ok 200 (mkSearch [mkSearchHit "201" "Z.Quark.1" 5])
      else .exc
    authorProfile := fun i =>
      if i = str "201" then
        .ok 200 { metadata := some { name := none, ids := none,
                                     positions := some [mkCurPos ref903],
                                     number_of_papers := none } }
      else .exc
    institution := fun i =>
      if i = str "903" then
        .ok 200 { metadata := some { legacy_ICN := some (str "Cambridge U.") } }
      else .exc
    authorsAt := fun i =>
      if i = str "903" then
        .ok 200 (mkSearch [mkMemberHit "201" "Zed Quark" "Z.Quark.1" ref903 5,
                           mkMemberHit "202" "Alice Ant" "A.Ant.1" ref903 9])
      else .exc }

/-- Run fixture where keyword filtering matches no institution: 903
resolves to a display name sharing no keyword with the target. -/
def regNoKeyword : Registry :=
  { discovery := fun _ => .exc
    authorSearch := fun _ => .exc
    authorProfile := fun i =>
      if i = str "101" then
        .ok 200 { metadata := some { name := none, ids := none,
                                     positions := some [mkCurPos ref903],
                                     number_of_papers := none } }
      else .exc
    institution := fun i =>
      if i = str "903" then
        .ok 200 { metadata := some { legacy_ICN := some (str "Somewhere Else") } }
      else .exc
    authorsAt := fun i =>
      if i = str "903" then
        .ok 200 (mkSearch [mkMemberHit "102" "Carol Lee" "C.Lee.1" ref903 7])
      else .exc }

/-- Run fixture where every remote call raises. -/
def regExc : Registry :=
  { discovery := fun _ => .exc
    authorSearch := fun _ => .exc
    authorProfile := fun _ => .exc
    institution := fun _ => .exc
    authorsAt := fun _ => .exc }

theorem lexLe_trans : ∀ a b c : Str, lexLe a b = true → lexLe b c = true →
    lexLe a c = true := by
  intro a
  induction a with
  | nil => intro b c _ _; rfl
  | cons x xs ih =>
    intro b c h1 h2
    cases b with
    | nil => simp [lexLe] at h1
    | cons y ys =>
      cases c with
      | nil => simp [lexLe] at h2
      | cons z zs =>
        simp only [lexLe] at h1 h2 ⊢
        by_cases hxy : x = y
        · subst hxy
          simp only [if_pos rfl] at h1
          by_cases hyz : x = z
          · subst hyz
            simp only [if_pos rfl] at h2 ⊢
            exact ih ys zs h1 h2
          · simp only [if_neg hyz] at h2 ⊢
            exact h2
        · simp only [if_neg hxy] at h1
          by_cases hyz : y = z
          · subst hyz
            simp only [if_neg hxy]
            exact h1
          · simp only [if_neg hyz] at h2
            have hx : x.toNat < y.toNat := of_decide_eq_true h1
            have hy : y.toNat < z.toNat := of_decide_eq_true h2
            by_cases hxz : x = z
            · subst hxz
              omega
            · simp only [if_neg hxz]
              exact decide_eq_true (Nat.lt_trans hx hy)

theorem char_toNat_inj {a b : Char} (h : a.toNat = b.toNat) : a = b :=
  Char.ext (UInt32.ext h)

theorem lexLe_total : ∀ a b : Str, lexLe a b = true ∨ lexLe b a = true := by
  intro a
  induction a with
  | nil => intro b; left; rfl
  | cons x xs ih =>
    intro b
    cases b with
    | nil => right; rfl
    | cons y ys =>
      simp only [lexLe]
      by_cases hxy : x = y
      · subst hxy
        simp only [if_pos rfl]
        exact ih ys
      · have hne : x.toNat ≠ y.toNat := fun h => hxy (char_toNat_inj h)
        have hyx : y ≠ x := fun h => hxy h.symm
        simp only [if_neg hxy, if_neg hyx]
        rcases Nat.lt_or_ge x.toNat y.toNat with h | h
        · left; exact decide_eq_true h
        · right; exact decide_eq_true (by omega)

theorem lexLe_antisymm : ∀ a b : Str, lexLe a b = true → lexLe b a = true →
    a = b := by
  intro a
  induction a with
  | nil =>
    intro b _ h2
    cases b with
    | nil => rfl
    | cons y ys => simp [lexLe] at h2
  | cons x xs ih =>
    intro b h1 h2
    cases b with
    | nil => simp [lexLe] at h1
    | cons y ys =>
      simp only [lexLe] at h1 h2
      by_cases hxy : x = y
      · subst hxy
        simp only [if_pos rfl] at h1 h2
        rw [ih ys h1 h2]
      · have hyx : y ≠ x := fun h => hxy h.symm
        simp only [if_neg hxy] at h1
        simp only [if_neg hyx] at h2
        have hx : x.toNat < y.toNat := of_decide_eq_true h1
        have hy : y.toNat < x.toNat := of_decide_eq_true h2
        omega

theorem sortedIds_sorted (l : List Str) : List.Sorted lexLeP (sortedIds l) := by
  haveI : IsTotal Str lexLeP := ⟨fun x y => lexLe_total x y⟩
  haveI : IsTrans Str lexLeP := ⟨fun x y z => lexLe_trans x y z⟩
  exact List.sorted_insertionSort lexLeP l

theorem sortedIds_perm (l : List Str) : (sortedIds l).Perm l :=
  List.perm_insertionSort lexLeP l

theorem sortedIds_eq_of_perm {a b : List Str} (h : a.Perm b) :
    sortedIds a = sortedIds b := by
  haveI : IsAntisymm Str lexLeP := ⟨fun x y => lexLe_antisymm x y⟩
  exact List.eq_of_perm_of_sorted
    ((sortedIds_perm a).trans (h.trans (sortedIds_perm b).symm))
    (sortedIds_sorted a) (sortedIds_sorted b)

theorem phaseC_congr (reg : Registry) {a b : List Str}
    (h : sortedIds a = sortedIds b) : phaseC reg a = phaseC reg b := by
  unfold phaseC expandFold allAuthorsSeq
  rw [h]

theorem dictLookup_insert (d : List (Str × ResearcherRec)) (k : Str)
    (v : ResearcherRec) (b : Str) :
    dictLookup b (dictInsert d k v) = if k = b then some v else dictLookup b d := by
  induction d with
  | nil =>
    by_cases h : k = b <;> simp [dictInsert, dictLookup, List.find?, h]
  | cons p rest ih =>
    by_cases hpk : p.1 = k
    · by_cases hkb : k = b
      · subst hkb
        simp [dictInsert, dictLookup, List.find?, hpk]
      · have hpb : ¬ p.1 = b := fun h => hkb (hpk.symm.trans h)
        simp [dictInsert, dictLookup, List.find?, hpk, hkb, hpb]
    · by_cases hpb : p.1 = b
      · have hkb : ¬ k = b := fun h => hpk (hpb.trans h.symm)
        simp only [dictInsert, if_neg hpk, dictLookup, if_neg hkb]
        rw [List.find?_cons_of_pos _ (by simpa using hpb),
          List.find?_cons_of_pos _ (by simpa using hpb)]
      · simp only [dictInsert, if_neg hpk]
        simp only [dictLookup, List.find?, decide_eq_true_eq] at ih ⊢
        simp [hpb, ih]

theorem lookup_expandStep_ne (d : List (Str × ResearcherRec))
    (a : ResearcherRec) (b : Str) (ha : a.inspire_bai ≠ some b) :
    dictLookup b (expandStep d a) = dictLookup b d := by
  unfold expandStep
  cases hcb : a.inspire_bai with
  | none => simp [optTruthy]
  | some b' =>
    simp only [optTruthy, Option.getD]
    by_cases hbe : b'.isEmpty
    · simp [hbe]
    · have hne : b' ≠ b := by
        intro h
        exact ha (by rw [hcb, h])
      simp [hbe, dictLookup_insert, hne]

theorem lookup_foldl_expandStep (b : Str) (hb : b ≠ []) :
    ∀ (l : List ResearcherRec) (d : List (Str × ResearcherRec)),
    dictLookup b (l.foldl expandStep d) =
      ((l.filter (fun a => a.inspire_bai = some b)).getLast?).elim
        (dictLookup b d) some := by
  intro l
  induction l with
  | nil => intro d; simp
  | cons a l ih =>
    intro d
    by_cases ha : a.inspire_bai = some b
    · have hstep : expandStep d a = dictInsert d b a := by
        unfold expandStep
        rw [ha]
        simp only [optTruthy, Option.getD]
        have : (b.isEmpty) = false := by
          cases b with
          | nil => exact absurd rfl hb
          | cons c cs => rfl
        simp [this]
      have hfilter : (a :: l).filter (fun a => a.inspire_bai = some b) =
          a :: l.filter (fun a => a.inspire_bai = some b) := by
        simp [List.filter_cons, ha]
      rw [List.foldl_cons, ih, hstep, hfilter, dictLookup_insert,
        if_pos rfl, List.getLast?_cons]
      cases hlast : (l.filter (fun a => a.inspire_bai = some b)).getLast? <;> simp [hlast]
    · have hfilter : (a :: l).filter (fun a => a.inspire_bai = some b) =
          l.filter (fun a => a.inspire_bai = some b) := by
        simp [List.filter_cons, ha]
      rw [List.foldl_cons, ih, hfilter, lookup_expandStep_ne d a b ha]

theorem dictInsert_mem {d : List (Str × ResearcherRec)} {k : Str}
    {v : ResearcherRec} {p : Str × ResearcherRec} (h : p ∈ dictInsert d k v) :
    p ∈ d ∨ p = (k, v) := by
  induction d with
  | nil =>
    simp only [dictInsert, List.mem_singleton] at h
    exact Or.inr h
  | cons q rest ih =>
    simp only [dictInsert] at h
    by_cases hq : q.1 = k
    · rw [if_pos hq] at h
      rcases List.mem_cons.mp h with h | h
      · exact Or.inr h
      · exact Or.inl (List.mem_cons_of_mem q h)
    · rw [if_neg hq] at h
      rcases List.mem_cons.mp h with h | h
      · exact Or.inl (h ▸ List.mem_cons_self q rest)
      · rcases ih h with h | h
        · exact Or.inl (List.mem_cons_of_mem q h)
        · exact Or.inr h

theorem dictInsert_keys (d : List (Str × ResearcherRec)) (k : Str)
    (v : ResearcherRec) :
    (dictInsert d k v).map Prod.fst =
      if k ∈ d.map Prod.fst then d.map Prod.fst else d.map Prod.fst ++ [k] := by
  induction d with
  | nil => simp [dictInsert]
  | cons p rest ih =>
    simp only [dictInsert, List.map_cons]
    by_cases hpk : p.1 = k
    · rw [if_pos hpk, List.map_cons]
      have hk : k ∈ p.1 :: rest.map Prod.fst := hpk ▸ List.mem_cons_self p.1 _
      rw [if_pos hk, hpk]
    · have hkp : ¬ k = p.1 := fun h => hpk h.symm
      rw [if_neg hpk, List.map_cons, ih]
      by_cases hmem : k ∈ rest.map Prod.fst
      · rw [if_pos hmem, if_pos (List.mem_cons_of_mem p.1 hmem)]
      · have hnotc : ¬ k ∈ p.1 :: rest.map Prod.fst := by
          intro h
          rcases List.mem_cons.mp h with h | h
          · exact hkp h
          · exact hmem h
        rw [if_neg hmem, if_neg hnotc, List.cons_append]

theorem dictInsert_keys_nodup {d : List (Str × ResearcherRec)} {k : Str}
    {v : ResearcherRec} (h : (d.map Prod.fst).Nodup) :
    ((dictInsert d k v).map Prod.fst).Nodup := by
  rw [dictInsert_keys]
  by_cases hmem : k ∈ d.map Prod.fst
  · rwa [if_pos hmem]
  · rw [if_neg hmem]
    refine List.Nodup.append h (List.nodup_singleton k) ?_
    intro a ha hk
    rw [List.mem_singleton] at hk
    exact hmem (hk ▸ ha)

theorem expandStep_prop {d : List (Str × ResearcherRec)} {a : ResearcherRec}
    (h : ∀ p ∈ d, p.2.inspire_bai = some p.1) :
    ∀ p ∈ expandStep d a, p.2.inspire_bai = some p.1 := by
  intro p hp
  unfold expandStep at hp
  cases hcb : a.inspire_bai with
  | none => rw [hcb] at hp; simp only [optTruthy] at hp; exact h p hp
  | some b' =>
    rw [hcb] at hp
    simp only [optTruthy, Option.getD] at hp
    by_cases hbe : b'.isEmpty
    · rw [hbe] at hp
      simp only [Bool.not_true, if_neg] at hp
      exact h p hp
    · have hbe' : b'.isEmpty = false := Bool.of_not_eq_true hbe
      rw [hbe'] at hp
      simp only [Bool.not_false, if_pos] at hp
      rcases dictInsert_mem hp with hmem | heq
      · exact h p hmem
      · rw [heq]
        exact hcb

theorem expandStep_nodup {d : List (Str × ResearcherRec)} {a : ResearcherRec}
    (h : (d.map Prod.fst).Nodup) :
    ((expandStep d a).map Prod.fst).Nodup := by
  unfold expandStep
  by_cases ht : optTruthy a.inspire_bai
  · rw [if_pos ht]
    exact dictInsert_keys_nodup h
  · rwa [if_neg ht]

theorem foldl_expandStep_inv (l : List ResearcherRec) :
    ∀ d : List (Str × ResearcherRec),
    (∀ p ∈ d, p.2.inspire_bai = some p.1) → (d.map Prod.fst).Nodup →
    (∀ p ∈ l.foldl expandStep d, p.2.inspire_bai = some p.1) ∧
      ((l.foldl expandStep d).map Prod.fst).Nodup := by
  induction l with
  | nil => intro d h1 h2; exact ⟨h1, h2⟩
  | cons a l ih =>
    intro d h1 h2
    rw [List.foldl_cons]
    exact ih (expandStep d a) (expandStep_prop h1) (expandStep_nodup h2)

theorem assoc_nodup_eq {d : List (Str × ResearcherRec)}
    (hnd : (d.map Prod.fst).Nodup) {b : Str} {v₁ v₂ : ResearcherRec}
    (h1 : (b, v₁) ∈ d) (h2 : (b, v₂) ∈ d) : v₁ = v₂ := by
  induction d with
  | nil => cases h1
  | cons p rest ih =>
    rw [List.map_cons, List.nodup_cons] at hnd
    rcases List.mem_cons.mp h1 with h1 | h1 <;>
      rcases List.mem_cons.mp h2 with h2 | h2
    · rw [← h1] at h2
      exact congrArg Prod.snd h2.symm
    · have hb : b ∈ rest.map Prod.fst := List.mem_map.mpr ⟨(b, v₂), h2, rfl⟩
      have hpb : p.1 = b := by rw [← h1]
      exact absurd hb (hpb ▸ hnd.1)
    · have hb : b ∈ rest.map Prod.fst := List.mem_map.mpr ⟨(b, v₁), h1, rfl⟩
      have hpb : p.1 = b := by rw [← h2]
      exact absurd hb (hpb ▸ hnd.1)
    · exact ih hnd.2 h1 h2

theorem phaseC_bai_unique (reg : Registry) (ids : List Str)
    {v₁ v₂ : ResearcherRec} {b : Str} (h1 : v₁ ∈ phaseC reg ids)
    (h2 : v₂ ∈ phaseC reg ids) (hb1 : v₁.inspire_bai = some b)
    (hb2 : v₂.inspire_bai = some b) : v₁ = v₂ := by
  unfold phaseC dictValues at h1 h2
  have hinv := foldl_expandStep_inv (allAuthorsSeq reg ids) []
    (by intro p hp; cases hp) (by simp)
  rcases List.mem_map.mp h1 with ⟨p₁, hp₁, hv₁⟩
  rcases List.mem_map.mp h2 with ⟨p₂, hp₂, hv₂⟩
  have hk₁ : p₁.1 = b := by
    have := hinv.1 p₁ hp₁
    rw [hv₁, hb1] at this
    exact (Option.some_injective _ this).symm
  have hk₂ : p₂.1 = b := by
    have := hinv.1 p₂ hp₂
    rw [hv₂, hb2] at this
    exact (Option.some_injective _ this).symm
  have e₁ : (b, v₁) ∈ List.foldl expandStep [] (allAuthorsSeq reg ids) := by
    have : p₁ = (b, v₁) := by
      rw [← hk₁, ← hv₁]
    exact this ▸ hp₁
  have e₂ : (b, v₂) ∈ List.foldl expandStep [] (allAuthorsSeq reg ids) := by
    have : p₂ = (b, v₂) := by
      rw [← hk₂, ← hv₂]
    exact this ▸ hp₂
  exact assoc_nodup_eq hinv.2 e₁ e₂

theorem matchedOnly_ne_imp_names_ne {reg : Registry} {institution : Str}
    (h : matchedOnly reg institution ≠ []) :
    (search_institution_faculty reg institution).isEmpty = false := by
  cases hn : search_institution_faculty reg institution with
  | nil =>
    exfalso
    apply h
    unfold matchedOnly initialResults
    rw [hn]
    rfl
  | cons a l => rfl

theorem find_researchers_eq_expansion (reg : Registry) (institution : Str)
    (h : matchedOnly reg institution ≠ []) :
    find_researchers reg institution =
      expand_via_inspire reg (matchedOnly reg institution) institution := by
  have hme : (matchedOnly reg institution).isEmpty = false := by
    cases hm : matchedOnly reg institution with
    | nil => exact absurd hm h
    | cons a l => rfl
  unfold find_researchers
  dsimp only
  rw [matchedOnly_ne_imp_names_ne h, hme]
  simp

/-- Claim C1, counterexample: in the `regNoIds` run, "Bob Carter" is a
discovered candidate that the Identity Matcher cannot resolve, yet no
record with that name is in the final output, because Alice matched and
the pipeline replaced the result list with the expander's output
(here its fallback, the matched set alone). -/
theorem claim_C1_counterexample :
    (str "Bob Carter") ∈ search_institution_faculty regNoIds instCam ∧
    search_inspire_profile regNoIds (str "Bob Carter") = none ∧
    ∀ r ∈ find_researchers regNoIds instCam, r.name ≠ str "Bob Carter" := by
  decide

/-- Claim C1, amended: an unmatched candidate name is retained in the
final output as an identity-less record exactly on the path where no
candidate matched at all; as soon as one candidate matches, the returned
list is the Affiliation Expander's output over the matched records only,
which contains no identity-less records built from unmatched names. -/
theorem claim_C1_amended (reg : Registry) (institution name : Str)
    (hn : name ∈ search_institution_faculty reg institution)
    (hu : search_inspire_profile reg name = none) :
    (matchedOnly reg institution = [] →
      unmatchedRec name ∈ find_researchers reg institution) ∧
    (matchedOnly reg institution ≠ [] →
      find_researchers reg institution =
        expand_via_inspire reg (matchedOnly reg institution) institution) := by
  constructor
  · intro hm
    have hne : (search_institution_faculty reg institution).isEmpty = false := by
      cases hcase : search_institution_faculty reg institution with
      | nil => rw [hcase] at hn; cases hn
      | cons a l => rfl
    have hme : (matchedOnly reg institution).isEmpty = true := by rw [hm]; rfl
    unfold find_researchers
    dsimp only
    rw [hne, hme]
    simp only [Bool.not_true, Bool.false_eq_true, if_false]
    unfold initialResults
    refine List.mem_map.mpr ⟨name, hn, ?_⟩
    rw [hu]
  · exact find_researchers_eq_expansion reg institution

/-- Claim C2: when a stable key occurs both in the matched set and in the
expander's output, the returned record for that key is the expander's
record — on the main path the expansion output has a unique record per
key and the returned record equals it, and the returned list is the
expander's output in every case. -/
theorem claim_C2 (reg : Registry) (institution b : Str) (r e : ResearcherRec)
    (hr : r ∈ find_researchers reg institution)
    (hrb : r.inspire_bai = some b)
    (hm : ∃ m ∈ matchedOnly reg institution, m.inspire_bai = some b)
    (he : e ∈ expand_via_inspire reg (matchedOnly reg institution) institution)
    (heb : e.inspire_bai = some b) :
    r ∈ expand_via_inspire reg (matchedOnly reg institution) institution ∧
    (phaseA reg (matchedOnly reg institution) ≠ [] → r = e) := by
  have hmne : matchedOnly reg institution ≠ [] := by
    rcases hm with ⟨m, hmm, _⟩
    intro h
    rw [h] at hmm
    cases hmm
  rw [find_researchers_eq_expansion reg institution hmne] at hr
  refine ⟨hr, fun hids => ?_⟩
  have hide : (phaseA reg (matchedOnly reg institution)).isEmpty = false := by
    cases hcase : phaseA reg (matchedOnly reg institution) with
    | nil => exact absurd hcase hids
    | cons a l => rfl
  unfold expand_via_inspire at hr he
  dsimp only at hr he
  rw [hide] at hr he
  simp only [Bool.false_eq_true, if_false] at hr he
  exact phaseC_bai_unique reg _ hr he hrb heb

theorem claim_C2_witness :
    authorRecOfHit (mkMemberHit "101" "Alice Newton" "A.Newton.1" ref903 45) ∈
      expand_via_inspire regMain (matchedOnly regMain instCam) instCam :=
  (claim_C2 regMain instCam (str "A.Newton.1")
    (authorRecOfHit (mkMemberHit "101" "Alice Newton" "A.Newton.1" ref903 45))
    (authorRecOfHit (mkMemberHit "101" "Alice Newton" "A.Newton.1" ref903 45))
    (by decide) (by decide) (by decide) (by decide) (by decide)).1

/-- Claim C3: evaluation at the failing input.  In the `regDupBai` run two
distinct candidate names resolve to the same stable key, every profile
fetch fails, so the expander takes its no-institution-ids fallback and the
final list carries the stable key `J.Smith.1` twice — the dedup invariant
the spec states (explicitly including this fallback path) does not hold. -/
theorem claim_C3_bug :
    ((find_researchers regDupBai instCam).map
      (fun r => r.inspire_bai)).count (some (str "J.Smith.1")) = 2 ∧
    phaseA regDupBai (matchedOnly regDupBai instCam) = [] := by
  decide

/-- Claim C4: the line filter of `search_institution_faculty` rejects a
line (after whitespace strip and bullet strip) exactly under the spec's
stated conditions, and accepts exactly the remaining lines with at least
two whitespace-separated tokens, yielding the stripped line itself. -/
theorem claim_C4 (raw : Str) :
    processLine raw =
      (if specRejects (lstripBullets (pyStrip raw)) ||
          decide ((splitWs (lstripBullets (pyStrip raw))).length < 2)
       then none
       else some (lstripBullets (pyStrip raw))) := by
  unfold processLine specRejects
  dsimp only
  by_cases h0 : pyStrip raw = []
  · rw [if_pos h0, h0]
    rfl
  · rw [if_neg h0]
    generalize lstripBullets (pyStrip raw) = line
    by_cases h1 : line = []
    · subst h1
      rfl
    · have h1e : line.isEmpty = false := by
        cases line with
        | nil => exact absurd rfl h1
        | cons c cs => rfl
      have hcc : (line.contains ',' && decide (1 < line.count ',')) =
          decide (1 < line.count ',') := by
        by_cases h6 : 1 < line.count ','
        · have hm : (',') ∈ line := List.count_pos_iff.mp (by omega)
          have hc : line.contains ',' = true := List.elem_iff.mpr hm
          rw [hc, Bool.true_and]
        · rw [decide_eq_false h6, Bool.and_false]
      rw [if_neg h1, hcc, h1e, Bool.false_or]
      by_cases h2 : isInfixB (str "**") line = true
      · simp [h2]
      · by_cases h3 : (str ":").isSuffixOf line = true
        · simp [h2, h3]
        · by_cases h4 : leadIns.any (fun p => p.isPrefixOf (pyLower line)) = true
          · simp [h2, h3, h4]
          · by_cases h5 : 60 < line.length
            · simp [h2, h3, h4, h5]
            · by_cases h6 : 1 < line.count ','
              · simp [h2, h3, h4, h5, h6]
              · by_cases h7 : 2 ≤ (splitWs line).length
                · simp [h2, h3, h4, h5, h6, h7,
                    (by omega : ¬ (splitWs line).length < 2)]
                · simp [h2, h3, h4, h5, h6, h7,
                    (by omega : (splitWs line).length < 2)]

/-- Claim C5, counterexample: the filter does not strip the title "Dr.",
so the line is not accepted as `"Jane A. Smith"`. -/
theorem claim_C5_counterexample :
    parseNames (str "  - Dr. Jane A. Smith") ≠ [str "Jane A. Smith"] := by
  decide

/-- Claim C5, amended: `"  - Dr. Jane A. Smith"` is accepted, but as
`"Dr. Jane A. Smith"` — the bullet strip removes only characters from
`'-•*0123456789. '`, and `'D'` stops it, so the title survives; the
narrative line `"Based on the search, here are names:"` is rejected. -/
theorem claim_C5_amended :
    parseNames (str "  - Dr. Jane A. Smith") = [str "Dr. Jane A. Smith"] ∧
    parseNames (str "Based on the search, here are names:") = [] := by
  decide

/-- Claim C6: when phase B's keyword filtering eliminates every candidate
institution id from a non-empty candidate set, the expander proceeds with
the full unfiltered set and the warning signal fires. -/
theorem claim_C6 (reg : Registry) (inits : List ResearcherRec) (instName : Str)
    (h1 : phaseA reg inits ≠ [])
    (h2 : filteredIdsOf reg instName (phaseA reg inits) = []) :
    survivingIds reg instName (phaseA reg inits) = phaseA reg inits ∧
    expandWarned reg inits instName = true ∧
    expand_via_inspire reg inits instName = phaseC reg (phaseA reg inits) := by
  have h1e : (phaseA reg inits).isEmpty = false := by
    cases hcase : phaseA reg inits with
    | nil => exact absurd hcase h1
    | cons a l => rfl
  have h2e : (filteredIdsOf reg instName (phaseA reg inits)).isEmpty = true := by
    rw [h2]
    rfl
  have hsurv : survivingIds reg instName (phaseA reg inits) = phaseA reg inits := by
    unfold survivingIds
    dsimp only
    rw [h2e]
    rfl
  refine ⟨hsurv, ?_, ?_⟩
  · unfold expandWarned
    dsimp only
    rw [h1e, h2e]
    rfl
  · unfold expand_via_inspire
    dsimp only
    rw [h1e, hsurv]
    rfl

theorem claim_C6_witness :
    expand_via_inspire regNoKeyword [aliceRec] instCam =
      phaseC regNoKeyword (phaseA regNoKeyword [aliceRec]) ∧
    expandWarned regNoKeyword [aliceRec] instCam = true :=
  ⟨(claim_C6 regNoKeyword [aliceRec] instCam (by decide) (by decide)).2.2,
   (claim_C6 regNoKeyword [aliceRec] instCam (by decide) (by decide)).2.1⟩

theorem findBai_eq_none {l : List IdEntry}
    (h : ∀ e ∈ l, e.schema ≠ some baiSchema) : findBai l = none := by
  induction l with
  | nil => rfl
  | cons e rest ih =>
    unfold findBai
    rw [if_neg (h e (List.mem_cons_self e rest))]
    exact ih (fun x hx => h x (List.mem_cons_of_mem e hx))

theorem findBai_mem {l : List IdEntry} {v : Str} (h : findBai l = some v) :
    ∃ e ∈ l, e.schema = some baiSchema ∧ e.value = some v := by
  induction l with
  | nil => cases h
  | cons e rest ih =>
    unfold findBai at h
    by_cases hs : e.schema = some baiSchema
    · rw [if_pos hs] at h
      exact ⟨e, List.mem_cons_self e rest, hs, h⟩
    · rw [if_neg hs] at h
      rcases ih h with ⟨e', he', hs', hv'⟩
      exact ⟨e', List.mem_cons_of_mem e he', hs', hv'⟩

/-- Claim C7: the Identity Matcher returns `none` on exception, non-200
status or empty hit list (and, being a total function of the response, it
propagates no exception); when it returns a record, the stable key is
`some v` only via an id entry labelled `INSPIRE BAI`, and it is `none`
whenever no entry carries that label. -/
theorem claim_C7 (reg : Registry) (name : Str) :
    (reg.authorSearch name = ApiResult.exc →
      search_inspire_profile reg name = none) ∧
    (∀ status data, reg.authorSearch name = ApiResult.ok status data →
      status ≠ 200 ∨ hitsOf data = [] → search_inspire_profile reg name = none) ∧
    (∀ r, search_inspire_profile reg name = some r →
      ((∀ e ∈ idsOfSearch reg name, e.schema ≠ some baiSchema) →
        r.inspire_bai = none) ∧
      (∀ v, r.inspire_bai = some v →
        ∃ e ∈ idsOfSearch reg name,
          e.schema = some baiSchema ∧ e.value = some v)) := by
  refine ⟨?_, ?_, ?_⟩
  · intro h
    unfold search_inspire_profile
    rw [h]
  · intro status data h hor
    unfold search_inspire_profile
    rw [h]
    dsimp only
    rcases hor with h2 | h2
    · rw [if_neg h2]
    · by_cases hs : status = 200
      · rw [if_pos hs, h2]
      · rw [if_neg hs]
  · intro r hr
    unfold search_inspire_profile at hr
    cases hq : reg.authorSearch name with
    | exc => rw [hq] at hr; cases hr
    | ok status data =>
      rw [hq] at hr
      dsimp only at hr
      by_cases hs : status = 200
      · rw [if_pos hs] at hr
        cases hh : hitsOf data with
        | nil => rw [hh] at hr; cases hr
        | cons hit rest =>
          rw [hh] at hr
          dsimp only at hr
          have hids : idsOfSearch reg name =
              (hit.metadata.getD emptyMetadata).ids.getD [] := by
            unfold idsOfSearch
            rw [hq]
            dsimp only
            rw [hh]
          have hbai : r.inspire_bai =
              findBai ((hit.metadata.getD emptyMetadata).ids.getD []) := by
            have := Option.some_injective _ hr
            rw [← this]
          constructor
          · intro hno
            rw [hbai]
            exact findBai_eq_none (by rw [← hids]; exact hno)
          · intro v hv
            rw [hbai] at hv
            rw [hids]
            exact findBai_mem hv
      · rw [if_neg hs] at hr
        cases hr

theorem claim_C7_witness :
    search_inspire_profile regExc (str "Alice Newton") = none :=
  (claim_C7 regExc (str "Alice Newton")).1 rfl

theorem optTruthy_some {o : Option Str} (h : optTruthy o = true) :
    ∃ k, o = some k ∧ k ≠ [] := by
  cases o with
  | none => cases h
  | some s =>
    refine ⟨s, rfl, ?_⟩
    intro he
    rw [he] at h
    cases h

/-- Claim C8: the membership-enumeration phase includes a registry record
only when some current position of the hit references the queried
institution and the extracted stable key is non-empty; the accumulation
over all surviving institutions is a stable-key-indexed mapping with
last-write-wins on duplicate keys, and the phase output is that mapping's
values. -/
theorem claim_C8 (reg : Registry) (instId b : Str) (ids : List Str)
    (hb : b ≠ []) :
    (∀ r ∈ get_authors_at_institution reg instId,
      ∃ hit ∈ authorsAtHits reg instId, r = authorRecOfHit hit ∧
        currentHere instId (hit.metadata.getD emptyMetadata) = true ∧
        ∃ k, r.inspire_bai = some k ∧ k ≠ []) ∧
    dictLookup b (expandFold reg ids) =
      ((allAuthorsSeq reg ids).filter
        (fun a => a.inspire_bai = some b)).getLast? ∧
    phaseC reg ids = dictValues (expandFold reg ids) := by
  refine ⟨?_, ?_, rfl⟩
  · intro r hr
    unfold get_authors_at_institution at hr
    rcases List.mem_filterMap.mp hr with ⟨hit, hmem, hf⟩
    dsimp only at hf
    by_cases hc : (currentHere instId (hit.metadata.getD emptyMetadata) &&
        optTruthy (findBai ((hit.metadata.getD emptyMetadata).ids.getD []))) = true
    · rw [if_pos hc] at hf
      simp only [Bool.and_eq_true] at hc
      obtain ⟨hcur, htr⟩ := hc
      have hrr : r = authorRecOfHit hit := (Option.some_injective _ hf).symm
      refine ⟨hit, hmem, hrr, hcur, ?_⟩
      have hbai : r.inspire_bai =
          findBai ((hit.metadata.getD emptyMetadata).ids.getD []) := by
        rw [hrr]
        rfl
      rcases optTruthy_some htr with ⟨k, hk, hke⟩
      exact ⟨k, by rw [hbai]; exact hk, hke⟩
    · rw [if_neg hc] at hf
      cases hf
  · unfold expandFold
    rw [lookup_foldl_expandStep b hb (allAuthorsSeq reg ids) []]
    cases hl : ((allAuthorsSeq reg ids).filter
        (fun a => a.inspire_bai = some b)).getLast? <;> rfl

theorem claim_C8_witness :
    dictLookup (str "C.Lee.1") (expandFold regMain [str "903"]) =
      ((allAuthorsSeq regMain [str "903"]).filter
        (fun a => a.inspire_bai = some (str "C.Lee.1"))).getLast? :=
  (claim_C8 regMain (str "903") (str "C.Lee.1") [str "903"] (by decide)).2.1

/-- Claim C9, counterexample: in the `regUnsorted` run the pipeline
returns the expansion output in registry order — "Zed Quark" before
"Alice Ant" — so the list handed back to the caller is not sorted by
display name; only the written report rows are sorted. -/
theorem claim_C9_counterexample :
    ¬ sortedByName (find_researchers regUnsorted instCam) := by
  unfold sortedByName
  decide

/-- Claim C9, amended: the rows of the written report are ordered by
display name, ascending and case-sensitive (they are a name-sorted
permutation of the returned list); the list returned to the caller itself
keeps the expansion (or fallback) order and is not re-sorted. -/
theorem claim_C9_amended (l : List ResearcherRec) :
    sortedByName (reportRows l) ∧ (reportRows l).Perm l := by
  constructor
  · haveI : IsTotal ResearcherRec recNameLe := ⟨fun a b => lexLe_total a.name b.name⟩
    haveI : IsTrans ResearcherRec recNameLe :=
      ⟨fun a b c h1 h2 => lexLe_trans a.name b.name c.name h1 h2⟩
    exact List.sorted_insertionSort recNameLe l
  · exact List.perm_insertionSort recNameLe l

/-- Claim C10: the expander's phase C is deterministic in the set of
surviving institution ids — the ids are enumerated in ascending sorted
order, so two runs whose candidate id sets are permutations of one
another (any two iteration orders of the same set) produce identical
expansion output, and the enumeration order is sorted. -/
theorem claim_C10 (reg : Registry) (instName : Str) (l1 l2 : List Str)
    (hperm : l1.Perm l2) :
    List.Sorted lexLeP (sortedIds (survivingIds reg instName l1)) ∧
    sortedIds (survivingIds reg instName l1) =
      sortedIds (survivingIds reg instName l2) ∧
    phaseC reg (survivingIds reg instName l1) =
      phaseC reg (survivingIds reg instName l2) := by
  have hf : (filteredIdsOf reg instName l1).Perm (filteredIdsOf reg instName l2) :=
    hperm.filter _
  have hsurv : (survivingIds reg instName l1).Perm (survivingIds reg instName l2) := by
    unfold survivingIds
    dsimp only
    by_cases he : (filteredIdsOf reg instName l1).isEmpty = true
    · have he1 : filteredIdsOf reg instName l1 = [] := by
        cases hcase : filteredIdsOf reg instName l1 with
        | nil => rfl
        | cons a l => rw [hcase] at he; cases he
      have he2 : (filteredIdsOf reg instName l2).isEmpty = true := by
        have := hf.length_eq
        rw [he1] at this
        cases hcase : filteredIdsOf reg instName l2 with
        | nil => rfl
        | cons a l => rw [hcase] at this; cases this
      rw [he, he2]
      exact hperm
    · have he1 : (filteredIdsOf reg instName l1).isEmpty = false :=
        Bool.of_not_eq_true he
      have he2 : (filteredIdsOf reg instName l2).isEmpty = false := by
        have hlen := hf.length_eq
        cases hcase : filteredIdsOf reg instName l2 with
        | nil =>
          rw [hcase] at hlen
          cases hcase1 : filteredIdsOf reg instName l1 with
          | nil => rw [hcase1] at he1; cases he1
          | cons a l => rw [hcase1] at hlen; cases hlen
        | cons a l => rfl
      rw [he1, he2]
      exact hf
  have heq := sortedIds_eq_of_perm hsurv
  exact ⟨sortedIds_sorted _, heq, phaseC_congr reg heq⟩

theorem claim_C10_witness :
    phaseC regMain (survivingIds regMain instCam [str "904", str "903"]) =
      phaseC regMain (survivingIds regMain instCam [str "903", str "904"]) :=
  (claim_C10 regMain instCam [str "904", str "903"] [str "903", str "904"]
    (by decide)).2.2

theorem claim_C1_witness :
    find_researchers regNoIds instCam =
      expand_via_inspire regNoIds (matchedOnly regNoIds instCam) instCam :=
  (claim_C1_amended regNoIds instCam (str "Bob Carter")
    (by decide) (by decide)).2 (by decide)
